import Mathlib

/-!
# Verification of the autosort pattern/scoring engine

Shallow embedding of `src/autosort.py` (a Python 2 weechat script): the
glob-pattern compiler (`Pattern`), the rule table (`RuleList`), the JSON
wire format used by `RuleList.encode` / `RuleList.decode`, and the
component preprocessing (`preprocess`).  Python exceptions are modelled
with `Except`; mutating methods return the post-state explicitly, and a
raised exception carries the state the object was left in, so that
atomicity properties can be stated.
-/

deriving instance DecidableEq for Except

namespace Autosort

/-- Kinds of Python exceptions raised by the embedded code.  Message texts
are not modelled, only which kind of exception escapes. -/
inductive PyErr where
  /-- `ValueError`, raised explicitly by the script (bad index, bad pattern
  syntax). -/
  | valueError : PyErr
  /-- `NameError`, raised when the code references an undefined name. -/
  | nameError : PyErr
  /-- `TypeError`, raised by builtins applied to values of the wrong type
  (e.g. `len` of an int, `str + int` concatenation). -/
  | typeError : PyErr
  /-- `AttributeError`, raised in Python 2 by `re.escape([c])`: `re.escape`
  applied to a one-element *list* ends with `pattern[:0].join(s)` and a
  list has no `join` attribute. -/
  | attributeError : PyErr
  /-- `sre_constants.error`, raised by `re.compile` on a bad character
  range such as `[z-a]`. -/
  | reError : PyErr
deriving DecidableEq

/-! ## The compiled regex

`Pattern.__init__` builds a Python regex string from the glob pattern and
compiles it with `re.compile('^' + regex + '$')`.  The regex strings it
can build are concatenations of:
  * `re.escape(c)` for a single character (a literal),
  * `[^.]*` (from `*`),
  * `[^.]` (from `?`),
  * `[chars]` or `[^chars]` where `chars` is a concatenation of
    `re.escape(c)` members and *unescaped* `-` characters (from `-`
    inside a class, which the code appends without escaping).

We embed the regex as a list of items rather than a string; a class body
is a list of members, each either an escaped literal or a raw dash. -/

/-- One character of a character-class body: an `re.escape`d literal
member, or the raw `-` appended by the `elif c == '-' and char_class`
branch. -/
inductive CItem where
  | lit : Char → CItem
  | dash : CItem
deriving DecidableEq

/-- One item of the compiled regex. -/
inductive RItem where
  /-- `re.escape(c)`: matches exactly the character `c`. -/
  | lit : Char → RItem
  /-- `[^.]*`: any run of characters other than `.`. -/
  | star : RItem
  /-- `[^.]`: one character other than `.`. -/
  | one : RItem
  /-- `[body]` (`neg = false`) or `[^body]` (`neg = true`). -/
  | cls : Bool → List CItem → RItem
deriving DecidableEq

/-- The source character a class member stands for (an escaped member is
its own character, the raw dash is `-`).  Used for range endpoints. -/
def CItem.char : CItem → Char
  | .lit c => c
  | .dash => '-'

/-- A parsed element of a character class, after Python's `sre_parse` has
resolved raw dashes into ranges. -/
inductive CElem where
  | single : Char → CElem
  | range : Char → Char → CElem
deriving DecidableEq

/-- Python's `sre_parse` resolution of a class body: a raw dash between
two members forms a range (failing if the endpoints are out of order); a
raw dash first, last, or after a completed range is a literal `-`.
Escaped members never act as the range operator but may be endpoints. -/
def parseCls : List CItem → Except PyErr (List CElem)
  | [] => .ok []
  | x :: .dash :: [] => .ok [.single x.char, .single '-']
  | x :: .dash :: y :: rest =>
    if y.char < x.char then .error .reError
    else do
      let r ← parseCls rest
      .ok (.range x.char y.char :: r)
  | x :: rest => do
    let r ← parseCls rest
    .ok (.single x.char :: r)

/-- Membership of a character in one parsed class element. -/
def CElem.test (c : Char) : CElem → Bool
  | .single a => c = a
  | .range lo hi => lo ≤ c && c ≤ hi

/-- Whether character `c` matches the class `[body]` / `[^body]`.  For a
class whose body fails to parse the answer is irrelevant: `Pattern`
construction rejects such patterns (`re.compile` raises). -/
def clsMatch (neg : Bool) (body : List CItem) (c : Char) : Bool :=
  match parseCls body with
  | .error _ => false
  | .ok elems => if neg then !(elems.any (CElem.test c)) else elems.any (CElem.test c)

/-- Matching of the compiled regex items against the remaining input,
anchored on both sides, structured on a fuel parameter so that the
recursion is structural (every step shrinks the items or the input, so
`items.length + input.length + 1` fuel always suffices; `rmatch` below
supplies it).  The trailing anchor is Python's `$` without `re.M`: it
also matches just before a single final newline, hence the empty-items
case accepts `['\n']` as well as `[]`.  The `star` case is the
existential semantics of backtracking: `[^.]*rs` matches `s` iff `rs`
matches `s`, or the head of `s` is not `.` and `[^.]*rs` matches its
tail. -/
def rmatchF : Nat → List RItem → List Char → Bool
  | 0, _, _ => false
  | _ + 1, [], s => s == [] || s == ['\n']
  | _ + 1, .lit _ :: _, [] => false
  | fuel + 1, .lit c :: rs, x :: xs => c == x && rmatchF fuel rs xs
  | _ + 1, .one :: _, [] => false
  | fuel + 1, .one :: rs, x :: xs => x != '.' && rmatchF fuel rs xs
  | _ + 1, .cls _ _ :: _, [] => false
  | fuel + 1, .cls neg body :: rs, x :: xs => clsMatch neg body x && rmatchF fuel rs xs
  | fuel + 1, .star :: rs, [] => rmatchF fuel rs []
  | fuel + 1, .star :: rs, x :: xs =>
    rmatchF fuel rs (x :: xs) || (x != '.' && rmatchF fuel (.star :: rs) xs)

/-- Each `rmatchF` step strictly shrinks `rs.length + s.length`, so this
fuel is sufficient: the `fuel = 0` case is never reached. -/
def rmatch (rs : List RItem) (s : List Char) : Bool :=
  rmatchF (rs.length + s.length + 1) rs s

/-! ## The pattern compiler (`Pattern.__init__`) -/

/-- The loop state of `Pattern.__init__`: the `escaped` flag, the
`char_class` flag, the accumulated class body (`chars`, split here into
the optional leading `^` and the member list), and the accumulated
regex (`regex`). -/
structure CompSt where
  escaped : Bool
  char_class : Bool
  neg : Bool
  chars : List CItem
  regex : List RItem
deriving DecidableEq

/-- One iteration of the `for c in pattern` loop of `Pattern.__init__`.
The branches are in the source's `elif` order.  The two `escaped`
branches call `re.escape([c])` — note the brackets: `re.escape` is
applied to a one-element list, which raises in Python 2
(`AttributeError` from `pattern[:0].join(s)`), so every use of `\`
followed by another character aborts construction.  `*` and `?` are
tested *before* the character-class branches, so they emit `[^.]*` /
`[^.]` into the regex even while a class is open. -/
def compStep (st : CompSt) (c : Char) : Except PyErr CompSt :=
  if st.escaped && st.char_class then
    .error .attributeError
  else if st.escaped then
    .error .attributeError
  else if c == '\\' then
    .ok { st with escaped := true }
  else if c == '*' then
    .ok { st with regex := st.regex ++ [.star] }
  else if c == '?' then
    .ok { st with regex := st.regex ++ [.one] }
  else if c == '[' && !st.char_class then
    .ok { st with char_class := true, neg := false, chars := [] }
  else if c == '^' && st.char_class && !st.neg && st.chars.isEmpty then
    .ok { st with neg := true }
  else if c == ']' && st.char_class && !st.chars.isEmpty then
    .ok { st with char_class := false, regex := st.regex ++ [.cls st.neg st.chars] }
  else if c == '-' && st.char_class then
    .ok { st with chars := st.chars ++ [.dash] }
  else if st.char_class then
    .ok { st with chars := st.chars ++ [.lit c] }
  else
    .ok { st with regex := st.regex ++ [.lit c] }

/-- A compiled glob pattern: the original pattern text and the compiled
regex (`self.pattern` and `self.regex`). -/
structure Pattern where
  pattern : String
  regex : List RItem
deriving DecidableEq

/-- Whether `re.compile` accepts an item (it rejects class bodies with a
bad range). -/
def RItem.compileOk : RItem → Bool
  | .cls _ body => (parseCls body).isOk
  | _ => true

/-- `Pattern.__init__`: run the loop over the pattern characters, then
check for an unmatched `[` and a trailing `\`, then `re.compile` the
result (which can still reject a bad character range). -/
def Pattern.compile (pattern : String) : Except PyErr Pattern := do
  let st ← pattern.data.foldlM compStep ⟨false, false, false, [], []⟩
  if st.char_class then .error .valueError
  else if st.escaped then .error .valueError
  else if st.regex.all RItem.compileOk then .ok ⟨pattern, st.regex⟩
  else .error .reError

/-- `Pattern.match`: match the compiled regex (anchored `^...$`) against
the input; Python returns a match object or `None`, modelled as `Bool`. -/
def Pattern.pmatch (p : Pattern) (input : String) : Bool :=
  rmatch p.regex input.data

/-- A pattern consisting only of plain literal characters: the value
`Pattern.compile` returns for a string containing none of the special
characters `\ * ? [ ]` (and no `^` or `-` in class position). -/
def patLit (s : String) : Pattern :=
  ⟨s, s.data.map RItem.lit⟩

/-! ## The rule table (`RuleList`) -/

/-- `RuleList`: the ordered rule list (`self.__rules`) and the cached
default score (`self.__highest`). -/
structure RuleList where
  rules : List (Pattern × Int)
  highest : Int
deriving DecidableEq

/-- `RuleList.__init__`: store the rules and compute
`highest = max(0, rule[1] + 1 over all rules)` (the accumulator starts
at `0`, not below the scores). -/
def RuleList.init (rules : List (Pattern × Int)) : RuleList :=
  ⟨rules, rules.foldl (fun h r => max h (r.2 + 1)) 0⟩

/-- The loop of `RuleList.get_score`: return the score of the first rule
whose pattern matches, else the supplied default. -/
def get_score_aux (rules : List (Pattern × Int)) (name : String) (highest : Int) : Int :=
  match rules with
  | [] => highest
  | r :: rs => if r.1.pmatch name then r.2 else get_score_aux rs name highest

/-- `RuleList.get_score(self, name, rules)`: the `rules` parameter is
accepted but never used by the body, which iterates `self.__rules`. -/
def RuleList.get_score {α : Sort _} (t : RuleList) (name : String) (_rules : α) : Int :=
  get_score_aux t.rules name t.highest

/-- `RuleList.append`: unconditional append, raising `highest`. -/
def RuleList.append (t : RuleList) (rule : Pattern × Int) : RuleList :=
  ⟨t.rules ++ [rule], max t.highest (rule.2 + 1)⟩

/-- `RuleList.insert`: bounds check `0 <= index <= len(self)` (raising
`ValueError` and leaving the list untouched otherwise), then insert and
raise `highest`.  The error carries the post-state. -/
def RuleList.insert (t : RuleList) (index : Int) (rule : Pattern × Int) :
    Except (PyErr × RuleList) RuleList :=
  if 0 ≤ index ∧ index ≤ t.rules.length then
    .ok ⟨t.rules.insertIdx index.toNat rule, max t.highest (rule.2 + 1)⟩
  else
    .error (.valueError, t)

/-- `RuleList.pop`: bounds check `0 <= index < len(self)`, then remove
and return the rule at `index`. -/
def RuleList.pop (t : RuleList) (index : Int) :
    Except (PyErr × RuleList) ((Pattern × Int) × RuleList) :=
  if h : 0 ≤ index ∧ index < t.rules.length then
    .ok (t.rules.get ⟨index.toNat, by omega⟩, ⟨t.rules.eraseIdx index.toNat, t.highest⟩)
  else
    .error (.valueError, t)

/-- `RuleList.move`: `self.insert(index_b, self.pop(index_a))`.  The pop
happens first; if the insert's bounds check then fails, the exception
propagates with the popped rule already removed. -/
def RuleList.move (t : RuleList) (index_a index_b : Int) :
    Except (PyErr × RuleList) RuleList :=
  match t.pop index_a with
  | .error e => .error e
  | .ok (rule, t') => t'.insert index_b rule

/-- `RuleList.__getitem__`: bounds check `0 <= index < len(self)`, then
return the rule (no mutation, so errors do not carry a state). -/
def RuleList.getitem (t : RuleList) (index : Int) : Except PyErr (Pattern × Int) :=
  if h : 0 ≤ index ∧ index < t.rules.length then
    .ok (t.rules.get ⟨index.toNat, by omega⟩)
  else
    .error .valueError

/-- `RuleList.__setitem__`: bounds check, then raise `highest` by the new
rule's score, then execute `self.__rules[index] = value` — but the
method's parameter is named `rule` and no `value` is in scope, so this
final statement always raises `NameError`, with `highest` already
updated and the rule list untouched. -/
def RuleList.setitem (t : RuleList) (index : Int) (rule : Pattern × Int) :
    Except (PyErr × RuleList) RuleList :=
  if 0 ≤ index ∧ index < t.rules.length then
    .error (.nameError, ⟨t.rules, max t.highest (rule.2 + 1)⟩)
  else
    .error (.valueError, t)

/-- `RuleList.swap`: the tuple assignment
`self[a], self[b] = self[b], self[a]` evaluates `self[index_b]` then
`self[index_a]` (both reads), then assigns to `self[index_a]` and then
`self[index_b]` via `__setitem__`. -/
def RuleList.swap (t : RuleList) (index_a index_b : Int) :
    Except (PyErr × RuleList) RuleList :=
  match t.getitem index_b with
  | .error e => .error (e, t)
  | .ok rb =>
    match t.getitem index_a with
    | .error e => .error (e, t)
    | .ok ra =>
      match t.setitem index_a rb with
      | .error e => .error e
      | .ok t' => t'.setitem index_b ra

/-! ## JSON wire format

`RuleList.encode` is `json.dumps(...)` applied to the list of
`(pattern_text, score)` pairs, `RuleList.decode` starts with
`json.loads(blob)`.  We model the JSON values the claims exercise:
integers, strings and arrays (`json.dumps` only ever receives these from
`encode`).  The serializer matches Python's output for this shape —
`", "` item separator, `\"` / `\\` / `\u00XX` string escapes — except
that it leaves non-ASCII characters unescaped (Python's `ensure_ascii`
would `\u`-escape them; both forms parse back to the same string).  The
parser accepts the grammar of these three value kinds, including all the
standard single-character escapes. -/

/-- A JSON value: an integer, a string, or an array. -/
inductive JVal where
  | jint : Int → JVal
  | jstr : String → JVal
  | jlist : List JVal → JVal

/-- The decimal digit character for `n < 10`. -/
def digitChar (n : Nat) : Char := Char.ofNat ('0'.toNat + n)

/-- Decimal digits of a natural number, most significant first,
structured on a fuel parameter so that the recursion is structural
(`n / 10 < n` for `n ≥ 10`, so any fuel above `n` suffices; `natDigits`
below supplies it). -/
def natDigitsF : Nat → Nat → List Char
  | 0, _ => []
  | fuel + 1, n =>
    if n < 10 then [digitChar n]
    else natDigitsF fuel (n / 10) ++ [digitChar (n % 10)]

/-- Decimal digits of a natural number, most significant first. -/
def natDigits (n : Nat) : List Char :=
  natDigitsF (n + 1) n

/-- Decimal rendering of an integer, as `json.dumps` (equivalently
Python's `str`) prints it. -/
def dumpInt (n : Int) : List Char :=
  if n < 0 then '-' :: natDigits (-n).toNat else natDigits n.toNat

/-- Lower-case hex digit for `n < 16`. -/
def hexDigitChar (n : Nat) : Char :=
  if n < 10 then digitChar n else Char.ofNat ('a'.toNat + (n - 10))

/-- JSON string escaping of one character: `"` and `\` get a backslash,
control characters become `\u00XX`, everything else is emitted as is. -/
def escJ (c : Char) : List Char :=
  if c = '"' then ['\\', '"']
  else if c = '\\' then ['\\', '\\']
  else if c.toNat < 32 then
    ['\\', 'u', '0', '0', hexDigitChar (c.toNat / 16), hexDigitChar (c.toNat % 16)]
  else [c]

/-- Escape every character of a string body. -/
def escList : List Char → List Char
  | [] => []
  | c :: cs => escJ c ++ escList cs

/-- A JSON string literal: quote, escaped body, quote. -/
def dumpStr (s : String) : List Char :=
  '"' :: escList s.data ++ ['"']

/-- One encoded rule: the two-element array `[pattern_text, score]`. -/
def dumpEntry (r : Pattern × Int) : List Char :=
  '[' :: dumpStr r.1.pattern ++ ',' :: ' ' :: dumpInt r.2 ++ [']']

/-- The remaining entries of the encoded rule array, after the first:
`", "` before each entry, then the closing bracket. -/
def dumpEntriesTail : List (Pattern × Int) → List Char
  | [] => [']']
  | r :: rs => ',' :: ' ' :: dumpEntry r ++ dumpEntriesTail rs

/-- The encoded rule array. -/
def dumpRules : List (Pattern × Int) → List Char
  | [] => ['[', ']']
  | r :: rs => '[' :: dumpEntry r ++ dumpEntriesTail rs

/-- `RuleList.encode`:
`json.dumps(map(lambda x: (x[0].pattern, x[1]), self.__rules))`. -/
def RuleList.encode (t : RuleList) : String :=
  String.mk (dumpRules t.rules)

/-- Value of a hex digit character. -/
def hexVal (c : Char) : Option Nat :=
  if '0' ≤ c ∧ c ≤ '9' then some (c.toNat - '0'.toNat)
  else if 'a' ≤ c ∧ c ≤ 'f' then some (c.toNat - 'a'.toNat + 10)
  else if 'A' ≤ c ∧ c ≤ 'F' then some (c.toNat - 'A'.toNat + 10)
  else none

/-- The single-character JSON string escapes. -/
def simpleEsc (c : Char) : Option Char :=
  if c = '"' then some '"'
  else if c = '\\' then some '\\'
  else if c = '/' then some '/'
  else if c = 'b' then some (Char.ofNat 8)
  else if c = 'f' then some (Char.ofNat 12)
  else if c = 'n' then some '\n'
  else if c = 'r' then some '\r'
  else if c = 't' then some '\t'
  else none

/-- Parse a JSON string body up to the closing quote, resolving escapes.
Raw control characters are rejected (as by `json.loads` in strict
mode). -/
def parseStrBody : List Char → Option (List Char × List Char)
  | [] => none
  | c :: r =>
    if c = '"' then some ([], r)
    else if c = '\\' then
      match r with
      | [] => none
      | e :: r' =>
        if e = 'u' then
          match r' with
          | h1 :: h2 :: h3 :: h4 :: r'' => do
            let a ← hexVal h1
            let b ← hexVal h2
            let c3 ← hexVal h3
            let d ← hexVal h4
            let (cs, rest) ← parseStrBody r''
            some (Char.ofNat (((a * 16 + b) * 16 + c3) * 16 + d) :: cs, rest)
          | _ => none
        else do
          let ec ← simpleEsc e
          let (cs, rest) ← parseStrBody r'
          some (ec :: cs, rest)
    else if c.toNat < 32 then none
    else do
      let (cs, rest) ← parseStrBody r
      some (c :: cs, rest)

/-- Numeric value of a digit run, most significant first. -/
def digitsToNat (ds : List Char) : Nat :=
  ds.foldl (fun a c => a * 10 + (c.toNat - '0'.toNat)) 0

/-- Parse a run of decimal digits. -/
def parseNatTok (r : List Char) : Option (Nat × List Char) :=
  if (r.takeWhile Char.isDigit).isEmpty then none
  else some (digitsToNat (r.takeWhile Char.isDigit), r.dropWhile Char.isDigit)

/-- Parse an integer token (optional leading minus). -/
def parseIntTok (r : List Char) : Option (Int × List Char) :=
  if r.headD ' ' = '-' then (parseNatTok r.tail).map fun p => (-(p.1 : Int), p.2)
  else (parseNatTok r).map fun p => ((p.1 : Int), p.2)

/-- JSON insignificant whitespace. -/
def isWs (c : Char) : Bool :=
  c == ' ' || c == '\t' || c == '\n' || c == '\r'

/-- Drop leading whitespace. -/
def skipWs (s : List Char) : List Char :=
  s.dropWhile isWs

mutual

/-- Parse one JSON value (fuel-indexed; the toplevel supplies enough fuel
for any input it can parse): a string, an array, or an integer,
dispatched on the first non-whitespace character. -/
def parseValF : Nat → List Char → Option (JVal × List Char)
  | 0, _ => none
  | fuel + 1, input =>
    let r := skipWs input
    if r.headD ' ' = '"' then
      (parseStrBody r.tail).map fun p => (.jstr (String.mk p.1), p.2)
    else if r.headD ' ' = '[' then
      let r2 := skipWs r.tail
      if r2.headD ' ' = ']' then some (.jlist [], r2.tail)
      else do
        let (v, r3) ← parseValF fuel r2
        let (vs, r4) ← parseItemsF fuel r3
        some (.jlist (v :: vs), r4)
    else
      (parseIntTok r).map fun p => (.jint p.1, p.2)

/-- Parse the remainder of an array after at least one element: either a
closing bracket, or a comma followed by an element and the rest. -/
def parseItemsF : Nat → List Char → Option (List JVal × List Char)
  | 0, _ => none
  | fuel + 1, input =>
    let r := skipWs input
    if r.headD ' ' = ']' then some ([], r.tail)
    else if r.headD ' ' = ',' then do
      let (v, r1) ← parseValF fuel r.tail
      let (vs, r2) ← parseItemsF fuel r1
      some (v :: vs, r2)
    else none

end

/-- `json.loads`: parse a complete JSON value with nothing but whitespace
after it; failures raise `ValueError`. -/
def json_loads (blob : String) : Except PyErr JVal :=
  match parseValF (blob.length + 1) blob.data with
  | some (v, rest) => if skipWs rest = [] then .ok v else .error .valueError
  | none => .error .valueError

/-! ## `RuleList.decode` -/

/-- Python `len()`: defined for lists and strings; `len` of an int raises
`TypeError`. -/
def pyLen : JVal → Except PyErr Int
  | .jlist xs => .ok xs.length
  | .jstr s => .ok s.length
  | .jint _ => .error .typeError

/-- Python iteration: a list yields its elements, a string yields its
characters as one-character strings, an int is not iterable. -/
def pyIter : JVal → Except PyErr (List JVal)
  | .jlist xs => .ok xs
  | .jstr s => .ok (s.data.map fun c => .jstr (String.mk [c]))
  | .jint _ => .error .typeError

/-- Python subscription `v[i]` for a non-negative index. -/
def pyIndex : JVal → Nat → Except PyErr JVal
  | .jlist xs, i =>
    match xs.get? i with
    | some v => .ok v
    | none => .error .valueError
  | .jstr s, i =>
    match s.data.get? i with
    | some c => .ok (.jstr (String.mk [c]))
    | none => .error .valueError
  | .jint _, _ => .error .typeError

/-- Python `int(string)`: strip whitespace, optional sign, decimal
digits; anything else raises `ValueError`. -/
def pyIntOfStr (s : String) : Except PyErr Int :=
  match s.trim.data with
  | '-' :: ds =>
    if ds ≠ [] ∧ ds.all Char.isDigit then .ok (-(digitsToNat ds : Int))
    else .error .valueError
  | '+' :: ds =>
    if ds ≠ [] ∧ ds.all Char.isDigit then .ok (digitsToNat ds)
    else .error .valueError
  | ds =>
    if ds ≠ [] ∧ ds.all Char.isDigit then .ok (digitsToNat ds)
    else .error .valueError

/-- Python `int()` applied to a decoded JSON value: ints pass through,
strings are parsed, lists raise `TypeError`. -/
def pyInt : JVal → Except PyErr Int
  | .jint n => .ok n
  | .jstr s => pyIntOfStr s
  | .jlist _ => .error .typeError

/-- `Pattern(rule[0])` applied to a decoded JSON value.  A string
compiles normally; an int is not iterable, so the `for c in pattern`
loop raises `TypeError`.  A Python list is iterated element-wise and can
even produce a pattern whose `pattern` attribute is a list; that exotic
value is not representable in this model's `Pattern` (whose text is a
string) and is modelled as a `TypeError` — no result below evaluates
`decode` on a blob with a list in the pattern slot. -/
def pyPattern : JVal → Except PyErr Pattern
  | .jstr s => Pattern.compile s
  | .jint _ => .error .typeError
  | .jlist _ => .error .typeError

/-- What `RuleList.decode` returns: either a proper `RuleList`, or — on
the `json.loads` failure path — the bare tuple `([], 0)` produced by
`return [], 0`, which is *not* a `RuleList` object. -/
inductive DecodeResult where
  | ruleList : RuleList → DecodeResult
  | rawPair : List (Pattern × Int) → Int → DecodeResult
deriving DecidableEq

/-- One iteration of the rule loop of `RuleList.decode`.  `len(rule)` is
evaluated outside any `try`, so a non-sized entry raises an uncaught
`TypeError`.  A failed `Pattern(rule[0])` is caught, but the diagnostic
concatenates `'... in "' + rule[0] + '"'`, which itself raises
`TypeError` when `rule[0]` is not a string.  A failed `int(rule[1])` is
caught and its diagnostic uses `str(rule[1])`, which is safe, so the
entry is skipped. -/
def decodeEntry (acc : List (Pattern × Int)) (rule : JVal) :
    Except PyErr (List (Pattern × Int)) :=
  match pyLen rule with
  | .error e => .error e
  | .ok l =>
    if l ≠ 2 then .ok acc
    else
      match pyIndex rule 0 with
      | .error e => .error e
      | .ok v0 =>
        match pyPattern v0 with
        | .error _ =>
          match v0 with
          | .jstr _ => .ok acc
          | _ => .error .typeError
        | .ok pattern =>
          match pyIndex rule 1 with
          | .error e => .error e
          | .ok v1 =>
            match pyInt v1 with
            | .error _ => .ok acc
            | .ok score => .ok (acc ++ [(pattern, score)])

/-- The `for rule in decoded` loop of `RuleList.decode`, accumulating
`result`; an uncaught exception from an entry aborts the whole loop. -/
def decodeRules : List JVal → List (Pattern × Int) → Except PyErr (List (Pattern × Int))
  | [], acc => .ok acc
  | rule :: rest, acc =>
    match decodeEntry acc rule with
    | .error e => .error e
    | .ok acc' => decodeRules rest acc'

/-- `RuleList.decode`: `json.loads` failure is caught and answered with
the bare tuple `([], 0)`; otherwise the decoded value is iterated and
each entry processed by the rule loop, whose uncaught exceptions
propagate. -/
def RuleList.decode (blob : String) : Except PyErr DecodeResult :=
  match json_loads blob with
  | .error _ => .ok (.rawPair [] 0)
  | .ok decoded =>
    match pyIter decoded with
    | .error e => .error e
    | .ok entries =>
      match decodeRules entries [] with
      | .error e => .error e
      | .ok result => .ok (.ruleList (RuleList.init result))

/-! ## Preprocessing (`preprocess`) -/

/-- The two configuration booleans `preprocess` reads. -/
structure Config where
  case_sensitive : Bool
  group_irc : Bool
deriving DecidableEq

/-- The grouping step of `preprocess`: when `group_irc` is set, the name
has at least two components, starts with `irc`, and its second component
is neither `server` nor `irc_raw`, insert `server` at position 1. -/
def groupTransform (group_irc : Bool) (buffer : List String) : List String :=
  if group_irc = true ∧ 2 ≤ buffer.length ∧ buffer.headD "" = "irc"
      ∧ buffer.getD 1 "" ≠ "server" ∧ buffer.getD 1 "" ≠ "irc_raw" then
    buffer.insertIdx 1 "server"
  else buffer

/-- Python 2 `str.lower()`: lower-case every character (ASCII, as in the
C locale; `Char.toLower` is the same ASCII mapping). -/
def pyLower (s : String) : String :=
  String.mk (s.data.map Char.toLower)

/-- `preprocess`: the grouping step, then lower-casing of every component
unless `case_sensitive` is set. -/
def preprocess (buffer : List String) (config : Config) : List String :=
  let result := groupTransform config.group_irc buffer
  if !config.case_sensitive then result.map pyLower else result

/-! ## Concrete tables used by witnesses and counterexamples -/

/-- A two-rule table: `a = 0`, `b = 1` (so `highest = 2`). -/
def sampleTable : RuleList := RuleList.init [(patLit "a", 0), (patLit "b", 1)]

/-- A table whose first two rules both match the name `a`. -/
def firstMatchTable : RuleList := RuleList.init [(patLit "a", 5), (patLit "a", 7)]

/-! ## Lemmas about `get_score` -/

/-- When no rule matches, the loop of `get_score` falls through to the
default. -/
theorem get_score_aux_no_match (name : String) (h : Int) :
    ∀ (rules : List (Pattern × Int)),
      (∀ r ∈ rules, r.1.pmatch name = false) →
      get_score_aux rules name h = h
  | [], _ => rfl
  | r :: rs, hall => by
    have h0 : r.1.pmatch name = false := hall r (List.mem_cons_self r rs)
    simp only [get_score_aux, h0, if_false, Bool.false_eq_true]
    exact get_score_aux_no_match name h rs (fun x hx => hall x (List.mem_cons_of_mem r hx))

/-- The loop of `get_score` returns the score of the first matching
rule. -/
theorem get_score_aux_first (name : String) (h : Int) :
    ∀ (rules : List (Pattern × Int)) (i : Nat) (hi : i < rules.length),
      (rules.get ⟨i, hi⟩).1.pmatch name = true →
      (∀ j (hj : j < i), (rules.get ⟨j, Nat.lt_trans hj hi⟩).1.pmatch name = false) →
      get_score_aux rules name h = (rules.get ⟨i, hi⟩).2
  | [], i, hi, _, _ => absurd hi (Nat.not_lt_zero i)
  | r :: rs, 0, _, hm, _ => by
    simp only [List.get] at hm ⊢
    simp only [get_score_aux, hm, if_true]
  | r :: rs, i + 1, hi, hm, hmin => by
    have h0 : r.1.pmatch name = false := hmin 0 (Nat.succ_pos i)
    simp only [List.get] at hm ⊢
    simp only [get_score_aux, h0, if_false, Bool.false_eq_true]
    exact get_score_aux_first name h rs i (Nat.lt_of_succ_lt_succ hi) hm
      (fun j hj => hmin (j + 1) (Nat.succ_lt_succ hj))

/-! ## Lemmas about the `highest` fold of `RuleList.__init__` -/

/-- The fold `highest = max(highest, score + 1)` never decreases its
accumulator. -/
theorem highest_foldl_ge (rules : List (Pattern × Int)) :
    ∀ a : Int, a ≤ rules.foldl (fun h r => max h (r.2 + 1)) a := by
  induction rules with
  | nil => intro a; simp
  | cons r rs ih =>
    intro a
    calc a ≤ max a (r.2 + 1) := le_max_left _ _
    _ ≤ rs.foldl (fun h r => max h (r.2 + 1)) (max a (r.2 + 1)) := ih _

/-- Every rule's score is below the fold's result. -/
theorem highest_foldl_gt (rules : List (Pattern × Int)) :
    ∀ (a : Int), ∀ r ∈ rules, r.2 < rules.foldl (fun h r => max h (r.2 + 1)) a := by
  induction rules with
  | nil => intro a r hr; simp at hr
  | cons q rs ih =>
    intro a r hr
    rcases List.mem_cons.mp hr with h | h
    · subst h
      have h1 : r.2 + 1 ≤ max a (r.2 + 1) := le_max_right _ _
      have h2 := highest_foldl_ge rs (max a (r.2 + 1))
      simp only [List.foldl_cons]
      omega
    · exact ih (max a (q.2 + 1)) r h

/-- The fold's result does not exceed any bound above the accumulator
and all scores. -/
theorem highest_foldl_le (rules : List (Pattern × Int)) :
    ∀ (a b : Int), a ≤ b → (∀ r ∈ rules, r.2 < b) →
      rules.foldl (fun h r => max h (r.2 + 1)) a ≤ b := by
  induction rules with
  | nil => intro a b hab _; simpa using hab
  | cons q rs ih =>
    intro a b hab hall
    simp only [List.foldl_cons]
    have hq : q.2 < b := hall q (List.mem_cons_self q rs)
    exact ih _ b (by omega) (fun r hr => hall r (List.mem_cons_of_mem q hr))

/-! ## Claim theorems -/

/-- C1.  `RuleList.get_score` returns the score of the lowest-index rule
whose pattern matches the name, ignoring any later matching rule, and
returns the default score (`self.__highest`) when no rule matches.  The
operation is a pure function of the table (embedded as such: it returns
a value and leaves no state behind). -/
theorem get_score_first_match_wins (t : RuleList) (name : String) {α : Sort _} (x : α) :
    (∀ i (hi : i < t.rules.length),
      (t.rules.get ⟨i, hi⟩).1.pmatch name = true →
      (∀ j (hj : j < i), (t.rules.get ⟨j, Nat.lt_trans hj hi⟩).1.pmatch name = false) →
      t.get_score name x = (t.rules.get ⟨i, hi⟩).2)
    ∧ ((∀ r ∈ t.rules, r.1.pmatch name = false) → t.get_score name x = t.highest) := by
  constructor
  · intro i hi hm hmin
    exact get_score_aux_first name t.highest t.rules i hi hm hmin
  · intro hall
    exact get_score_aux_no_match name t.highest t.rules hall

/-- Witness for C1: in the table `a = 5, a = 7` the name `a` matches the
rule at index 0, whose score 5 is returned (not the later 7), and in the
same table the unmatched name `zz` gets the default score 8. -/
theorem get_score_first_match_wins_witness :
    firstMatchTable.get_score "a" 0 = 5 ∧ firstMatchTable.get_score "zz" 0 = 8 := by
  constructor
  · exact (get_score_first_match_wins firstMatchTable "a" 0).1 0 (by decide) (by decide)
      (fun j hj => absurd hj (Nat.not_lt_zero j))
  · exact (get_score_first_match_wins firstMatchTable "zz" 0).2 (by decide)

/-- C2 counterexample.  For the one-rule table with score `-5`, the
derived default score is `0`, not `1 + (-5) = -4` as the claim states:
the accumulator of the fold starts at `0`, so the default never goes
below `0` even when every rule score is negative. -/
theorem default_score_not_one_plus_max :
    ¬ ((RuleList.init [(patLit "a", -5)]).highest = 1 + (-5)) := by decide

/-- C2 as amended.  After construction, `highest` (the default score) is
exactly `max 0 (1 + max rule score)`: it is non-negative, strictly
greater than every rule score, and minimal with those two properties;
for an empty table it is 0. -/
theorem default_score_characterization (rules : List (Pattern × Int)) :
    0 ≤ (RuleList.init rules).highest
    ∧ (∀ r ∈ rules, r.2 < (RuleList.init rules).highest)
    ∧ (∀ b : Int, 0 ≤ b → (∀ r ∈ rules, r.2 < b) → (RuleList.init rules).highest ≤ b)
    ∧ (rules = [] → (RuleList.init rules).highest = 0) := by
  refine ⟨highest_foldl_ge rules 0, highest_foldl_gt rules 0,
    fun b hb hall => highest_foldl_le rules 0 b hb hall, ?_⟩
  intro h; subst h; rfl

/-- Witness for C2 (amended): in the table `sampleTable` the rule `b = 1`
scores strictly below the derived default. -/
theorem default_score_characterization_witness :
    (1 : Int) < (RuleList.init [(patLit "a", 0), (patLit "b", 1)]).highest :=
  (default_score_characterization [(patLit "a", 0), (patLit "b", 1)]).2.1
    (patLit "b", 1) (by decide)

/-- C3 counterexample.  The pattern `[a-z]` does *not* denote the literal
three-member set `{a, -, z}`: the `-` is appended to the class body
unescaped, so the compiled regex class has range semantics — the
one-character input `b` matches and `-` does not, the opposite of the
claim. -/
theorem char_class_dash_literal_cx :
    (Pattern.compile "[a-z]").map (fun p => (p.pmatch "b", p.pmatch "-")) =
      .ok (true, false) := by decide

/-- C3 as amended.  `[a-z]` compiles successfully, and its matcher has
regex range semantics: a one-character input `c` matches exactly when
`'a' ≤ c ≤ 'z'`; in particular `a`, `b` and `z` match while `-` does
not. -/
theorem char_class_range_semantics :
    Pattern.compile "[a-z]" = .ok ⟨"[a-z]", [.cls false [.lit 'a', .dash, .lit 'z']]⟩
    ∧ ∀ c : Char,
      Pattern.pmatch ⟨"[a-z]", [.cls false [.lit 'a', .dash, .lit 'z']]⟩ (String.mk [c]) =
        decide ('a' ≤ c ∧ c ≤ 'z') := by
  constructor
  · decide
  · intro c
    have hp : parseCls [CItem.lit 'a', CItem.dash, CItem.lit 'z'] =
        .ok [CElem.range 'a' 'z'] := by decide
    simp [Pattern.pmatch, rmatch, rmatchF, clsMatch, hp, CElem.test]

/-- C4.  The claim says `\c` always compiles and makes `c` literal; in
fact the escape branches call `re.escape([c])` — `re.escape` applied to
a one-element *list* — which raises in Python 2, so compilation of `\a`
fails both outside and inside a character class. -/
theorem escape_always_raises :
    Pattern.compile "\\a" = .error .attributeError
    ∧ Pattern.compile "[\\a]" = .error .attributeError := by decide

/-- C5 counterexample.  `move(0, 2)` on the two-rule table: index 0 is in
range, index 2 is outside `[0, 2)`; the pop succeeds, the insert's
bounds check (against the shrunk length 1) fails, and the raised
`ValueError` leaves the table with the popped rule lost — one rule
instead of two. -/
theorem move_partial_mutation_cx :
    RuleList.move sampleTable 0 2 = .error (.valueError, ⟨[(patLit "b", 1)], 2⟩)
    ∧ sampleTable.rules ≠ [(patLit "b", 1)] := by decide

/-- C5 as amended.  `append` always fully applies.  `insert`, `pop`,
`replace` (`__setitem__`) and `swap` never change the rule sequence when
they raise.  `move` is the exception: with the from-index out of range
it raises and leaves the table unchanged, but with the from-index in
range and the to-index rejected by the subsequent insert, it raises with
the rule at the from-index already removed. -/
theorem mutation_error_atomicity (t : RuleList) (i a b : Int) (rule : Pattern × Int) :
    ((t.append rule).rules = t.rules ++ [rule])
    ∧ (∀ e t', t.insert i rule = .error (e, t') → t'.rules = t.rules)
    ∧ (∀ e t', t.pop i = .error (e, t') → t'.rules = t.rules)
    ∧ (∀ e t', t.setitem i rule = .error (e, t') → t'.rules = t.rules)
    ∧ (∀ e t', t.swap a b = .error (e, t') → t'.rules = t.rules)
    ∧ (∀ e t', t.move a b = .error (e, t') →
        (¬(0 ≤ a ∧ a < t.rules.length) → t'.rules = t.rules)
        ∧ ((0 ≤ a ∧ a < t.rules.length) → t'.rules = t.rules.eraseIdx a.toNat)) := by
  refine ⟨rfl, ?_, ?_, ?_, ?_, ?_⟩
  · intro e t' h
    unfold RuleList.insert at h
    split at h
    · exact absurd h (by simp)
    · injection h with h'; injection h' with h1 h2; rw [← h2]
  · intro e t' h
    unfold RuleList.pop at h
    split at h
    · exact absurd h (by simp)
    · injection h with h'; injection h' with h1 h2; rw [← h2]
  · intro e t' h
    unfold RuleList.setitem at h
    split at h
    · injection h with h'; injection h' with h1 h2; rw [← h2]
    · injection h with h'; injection h' with h1 h2; rw [← h2]
  · intro e t' h
    cases hgb : t.getitem b with
    | error eb =>
      have hval : t.swap a b = .error (eb, t) := by
        simp only [RuleList.swap, hgb]
      rw [h] at hval
      injection hval with h'
      injection h' with h1 h2
      rw [h2]
    | ok rb =>
      cases hga : t.getitem a with
      | error ea =>
        have hval : t.swap a b = .error (ea, t) := by
          simp only [RuleList.swap, hgb, hga]
        rw [h] at hval
        injection hval with h'
        injection h' with h1 h2
        rw [h2]
      | ok ra =>
        have hain : 0 ≤ a ∧ a < t.rules.length := by
          by_contra hc
          unfold RuleList.getitem at hga
          rw [dif_neg hc] at hga
          exact absurd hga (by simp)
        obtain ⟨ha1, ha2⟩ := hain
        have hset : t.setitem a rb =
            .error (.nameError, ⟨t.rules, max t.highest (rb.2 + 1)⟩) := by
          unfold RuleList.setitem
          simp [ha1, ha2]
        have hval : t.swap a b =
            .error (.nameError, ⟨t.rules, max t.highest (rb.2 + 1)⟩) := by
          simp only [RuleList.swap, hgb, hga, hset]
        rw [h] at hval
        injection hval with h'
        injection h' with h1 h2
        rw [h2]
  · intro e t' h
    by_cases ha : 0 ≤ a ∧ a < t.rules.length
    · have hpop : t.pop a = .ok (t.rules.get ⟨a.toNat, by omega⟩,
          ⟨t.rules.eraseIdx a.toNat, t.highest⟩) := by
        unfold RuleList.pop
        rw [dif_pos ha]
      have hval : t.move a b =
          (⟨t.rules.eraseIdx a.toNat, t.highest⟩ : RuleList).insert b
            (t.rules.get ⟨a.toNat, by omega⟩) := by
        simp only [RuleList.move, hpop]
      rw [hval] at h
      refine ⟨fun hc => absurd ha hc, fun _ => ?_⟩
      unfold RuleList.insert at h
      split at h
      · exact absurd h (by simp)
      · injection h with h'; injection h' with h1 h2; rw [← h2]
    · have hpop : t.pop a = .error (.valueError, t) := by
        unfold RuleList.pop
        rw [dif_neg ha]
      have hval : t.move a b = .error (.valueError, t) := by
        simp only [RuleList.move, hpop]
      rw [h] at hval
      injection hval with h'
      injection h' with h1 h2
      exact ⟨fun _ => by rw [h2], fun hc => absurd hc ha⟩

/-- Witness for C5 (amended): applying the `move` conjunct to the
concrete failing `move(0, 2)` on `sampleTable` shows the post-state is
the original rule list with the rule at index 0 removed. -/
theorem mutation_error_atomicity_witness :
    (⟨[(patLit "b", 1)], 2⟩ : RuleList).rules =
      sampleTable.rules.eraseIdx ((0 : Int)).toNat :=
  ((mutation_error_atomicity sampleTable 0 0 2 (patLit "a", 0)).2.2.2.2.2
    .valueError ⟨[(patLit "b", 1)], 2⟩ (by decide)).2 (by decide)

/-- C6.  `swap(0, 1)` on the two-rule table, both indices in range, does
not exchange the rules: `__setitem__` executes
`self.__rules[index] = value` where no name `value` exists (the
parameter is `rule`), so the first assignment of the tuple-swap raises
`NameError`; the rule sequence is left as it was and `highest` has
already been bumped. -/
theorem swap_raises_name_error :
    RuleList.swap sampleTable 0 1 = .error (.nameError, ⟨sampleTable.rules, 2⟩) := by
  decide

/-- C7.  `decode` is *not* uniformly non-fatal: an unparsable blob is
answered with the bare tuple `([], 0)` (the `return [], 0` statement) —
not an empty `RuleList` —, and a well-shaped list containing an entry
without a length (here the int `5`) raises an uncaught `TypeError` from
`len(rule)`.  For entries that do reach the guarded code, well-formed
`[pattern, score]` entries are kept in order and malformed ones are
skipped, as the third conjunct shows. -/
theorem decode_failure_modes :
    RuleList.decode "not json" = .ok (.rawPair [] 0)
    ∧ RuleList.decode "[5]" = .error .typeError
    ∧ RuleList.decode "[[\"a\", 1], [\"x\"], [\"b\", 2]]" =
        .ok (.ruleList (RuleList.init [(patLit "a", 1), (patLit "b", 2)])) := by
  refine ⟨by decide, by decide, by decide⟩

/-- C9.  The grouping step of `preprocess` inserts the literal component
`server` at position 1 exactly when grouping is enabled, the sequence
has at least two components, begins with `irc`, and its second component
is neither `server` nor `irc_raw`; in every other case it returns the
sequence unchanged.  The two concrete examples evaluate the full
`preprocess` at the default options (grouping on, case-insensitive). -/
theorem preprocess_grouping (gi : Bool) (b : List String) :
    (gi = true → 2 ≤ b.length → b.headD "" = "irc" →
      b.getD 1 "" ≠ "server" → b.getD 1 "" ≠ "irc_raw" →
      groupTransform gi b = b.take 1 ++ "server" :: b.drop 1)
    ∧ ((gi = false ∨ b.length < 2 ∨ b.headD "" ≠ "irc"
        ∨ b.getD 1 "" = "server" ∨ b.getD 1 "" = "irc_raw") →
      groupTransform gi b = b)
    ∧ preprocess ["irc", "freenode", "#chan"] ⟨false, true⟩ =
        ["irc", "server", "freenode", "#chan"]
    ∧ preprocess ["irc", "server", "freenode"] ⟨false, true⟩ =
        ["irc", "server", "freenode"] := by
  refine ⟨?_, ?_, by decide, by decide⟩
  · intro h1 h2 h3 h4 h5
    unfold groupTransform
    rw [if_pos ⟨h1, h2, h3, h4, h5⟩]
    match b, h2 with
    | x :: y :: rest, _ => simp [List.insertIdx]
  · intro hdisj
    unfold groupTransform
    rw [if_neg]
    rintro ⟨h1, h2, h3, h4, h5⟩
    rcases hdisj with h | h | h | h | h
    · rw [h1] at h; exact Bool.noConfusion h
    · omega
    · exact h h3
    · exact h4 h
    · exact h5 h

/-- Witness for C9: the grouping step applied to `["irc", "net", "#c"]`
with grouping enabled inserts `server` at position 1. -/
theorem preprocess_grouping_witness :
    groupTransform true ["irc", "net", "#c"] = ["irc", "server", "net", "#c"] :=
  (preprocess_grouping true ["irc", "net", "#c"]).1 rfl (by decide) (by decide)
    (by decide) (by decide)

/-! ## Round-trip lemmas for the JSON layer (claim C8)

The chain below proves that the parser inverts the serializer on
every value `encode` can produce: first for string bodies, then for
integers, then for one encoded rule, then for the encoded rule array,
and finally through `json_loads` and the decode loop. -/

/-- Hex digits round-trip for values below 16. -/
theorem hexVal_hexDigitChar : ∀ k, k < 16 → hexVal (hexDigitChar k) = some k := by decide

/-- Decimal digits round-trip for values below 10, and are digit
characters. -/
theorem digitChar_facts :
    ∀ k, k < 10 → (digitChar k).toNat - '0'.toNat = k ∧ (digitChar k).isDigit = true := by
  decide

/-- A digit character is not whitespace, not a quote, not a bracket and
not a minus sign. -/
theorem isDigit_excludes :
    ∀ c : Char, c.isDigit = true →
      isWs c = false ∧ c ≠ '"' ∧ c ≠ '[' ∧ c ≠ '-' := by
  intro c h
  refine ⟨?_, ?_, ?_, ?_⟩
  · by_contra hw
    rw [Bool.not_eq_false] at hw
    have hcases : c = ' ' ∨ c = '\t' ∨ c = '\n' ∨ c = '\r' := by
      simpa [isWs, or_assoc] using hw
    rcases hcases with h' | h' | h' | h' <;> (subst h'; exact absurd h (by decide))
  · intro h'; subst h'; exact absurd h (by decide)
  · intro h'; subst h'; exact absurd h (by decide)
  · intro h'; subst h'; exact absurd h (by decide)

/-- `takeWhile` passes over a prefix all of whose elements satisfy the
predicate. -/
theorem takeWhile_append_all (p : Char → Bool) :
    ∀ (l1 l2 : List Char), (∀ c ∈ l1, p c = true) →
      (l1 ++ l2).takeWhile p = l1 ++ l2.takeWhile p
  | [], l2, _ => by simp
  | c :: l1, l2, h => by
    have hc : p c = true := h c (List.mem_cons_self c l1)
    simp only [List.cons_append, List.takeWhile_cons, hc, if_true]
    rw [takeWhile_append_all p l1 l2 (fun x hx => h x (List.mem_cons_of_mem c hx))]

/-- `dropWhile` drops a prefix all of whose elements satisfy the
predicate. -/
theorem dropWhile_append_all (p : Char → Bool) :
    ∀ (l1 l2 : List Char), (∀ c ∈ l1, p c = true) →
      (l1 ++ l2).dropWhile p = l2.dropWhile p
  | [], l2, _ => by simp
  | c :: l1, l2, h => by
    have hc : p c = true := h c (List.mem_cons_self c l1)
    simp only [List.cons_append, List.dropWhile_cons, hc, if_true]
    exact dropWhile_append_all p l1 l2 (fun x hx => h x (List.mem_cons_of_mem c hx))

/-- When `takeWhile` takes nothing, `dropWhile` drops nothing. -/
theorem dropWhile_eq_self_of_takeWhile_nil (p : Char → Bool) :
    ∀ (l : List Char), l.takeWhile p = [] → l.dropWhile p = l
  | [], _ => rfl
  | c :: l, h => by
    by_cases hc : p c = true
    · simp [List.takeWhile_cons, hc] at h
    · simp only [List.dropWhile_cons, hc, if_false]
      rw [Bool.not_eq_true] at hc
      simp [hc]

/-- Appending one digit multiplies the accumulated value by ten. -/
theorem digitsToNat_append_digit (ds : List Char) (d : Char) :
    digitsToNat (ds ++ [d]) = digitsToNat ds * 10 + (d.toNat - '0'.toNat) := by
  simp [digitsToNat, List.foldl_append]

/-- `natDigitsF` with sufficient fuel produces a non-empty digit string
whose value is the input. -/
theorem natDigitsF_spec :
    ∀ (fuel n : Nat), n < fuel →
      digitsToNat (natDigitsF fuel n) = n
      ∧ (∀ d ∈ natDigitsF fuel n, d.isDigit = true)
      ∧ natDigitsF fuel n ≠ [] := by
  intro fuel
  induction fuel with
  | zero => intro n h; omega
  | succ f ih =>
    intro n _
    by_cases h10 : n < 10
    · refine ⟨?_, ?_, ?_⟩ <;> simp only [natDigitsF, if_pos h10]
      · simpa [digitsToNat] using (digitChar_facts n h10).1
      · intro d hd
        rcases List.mem_singleton.mp hd with h'
        rw [h']
        exact (digitChar_facts n h10).2
      · simp
    · have hrec := ih (n / 10) (by omega)
      refine ⟨?_, ?_, ?_⟩ <;> simp only [natDigitsF, if_neg h10]
      · rw [digitsToNat_append_digit, hrec.1, (digitChar_facts (n % 10) (by omega)).1]
        omega
      · intro d hd
        rcases List.mem_append.mp hd with h' | h'
        · exact hrec.2.1 d h'
        · rcases List.mem_singleton.mp h' with h''
          rw [h'']
          exact (digitChar_facts (n % 10) (by omega)).2
      · simp

/-- `natDigits` produces a non-empty digit string whose value is the
input. -/
theorem natDigits_spec (n : Nat) :
    digitsToNat (natDigits n) = n
    ∧ (∀ d ∈ natDigits n, d.isDigit = true)
    ∧ natDigits n ≠ [] :=
  natDigitsF_spec (n + 1) n (Nat.lt_succ_self n)

/-- `parseNatTok` inverts `natDigits` when what follows does not start
with a digit. -/
theorem parseNatTok_natDigits (n : Nat) (rest : List Char)
    (hrest : rest.takeWhile Char.isDigit = []) :
    parseNatTok (natDigits n ++ rest) = some (n, rest) := by
  obtain ⟨h1, h2, h3⟩ := natDigits_spec n
  have hemp : (natDigits n).isEmpty = false := by
    cases hnd : natDigits n with
    | nil => exact absurd hnd h3
    | cons _ _ => rfl
  unfold parseNatTok
  rw [takeWhile_append_all _ _ _ h2, hrest, List.append_nil,
    dropWhile_append_all _ _ _ h2, dropWhile_eq_self_of_takeWhile_nil _ _ hrest,
    hemp, h1]
  simp only [Bool.false_eq_true, if_false]

/-- `parseIntTok` inverts `dumpInt` when what follows does not start
with a digit. -/
theorem parseIntTok_dumpInt (n : Int) (rest : List Char)
    (hrest : rest.takeWhile Char.isDigit = []) :
    parseIntTok (dumpInt n ++ rest) = some (n, rest) := by
  by_cases hn : n < 0
  · have hd : dumpInt n = '-' :: natDigits (-n).toNat := by
      simp [dumpInt, if_pos hn]
    rw [hd]
    simp only [parseIntTok, List.cons_append, List.headD_cons, List.tail_cons, if_pos]
    rw [parseNatTok_natDigits _ _ hrest]
    simp [Int.toNat_of_nonneg (show (0 : Int) ≤ -n by omega)]
  · have hd : dumpInt n = natDigits n.toNat := by
      simp [dumpInt, if_neg hn]
    obtain ⟨h1, h2, h3⟩ := natDigits_spec n.toNat
    obtain ⟨d, ds, hds⟩ : ∃ d ds, natDigits n.toNat = d :: ds := by
      cases hnd : natDigits n.toNat with
      | nil => exact absurd hnd h3
      | cons d ds => exact ⟨d, ds, rfl⟩
    have hdd : d.isDigit = true := h2 d (by rw [hds]; exact List.mem_cons_self d ds)
    have hh : (natDigits n.toNat ++ rest).headD ' ' = d := by rw [hds]; rfl
    rw [hd]
    simp only [parseIntTok, hh]
    rw [if_neg (isDigit_excludes d hdd).2.2.2, parseNatTok_natDigits _ _ hrest]
    simp [Int.toNat_of_nonneg (show (0 : Int) ≤ n by omega)]

/-- `parseStrBody` inverts `escList` up to the closing quote. -/
theorem parseStrBody_escList : ∀ (s rest : List Char),
    parseStrBody (escList s ++ '"' :: rest) = some (s, rest)
  | [], rest => by
    simp only [escList, List.nil_append]
    rw [parseStrBody.eq_def]
    simp
  | c :: cs, rest => by
    have ih := parseStrBody_escList cs rest
    by_cases h1 : c = '"'
    · subst h1
      have hsh : escList ('"' :: cs) ++ '"' :: rest =
          '\\' :: '"' :: (escList cs ++ '"' :: rest) := by
        simp [escList, escJ]
      rw [hsh, parseStrBody.eq_def]
      simp [simpleEsc, ih]
    · by_cases h2 : c = '\\'
      · subst h2
        have hsh : escList ('\\' :: cs) ++ '"' :: rest =
            '\\' :: '\\' :: (escList cs ++ '"' :: rest) := by
          simp [escList, escJ]
        rw [hsh, parseStrBody.eq_def]
        simp [simpleEsc, ih]
      · by_cases h3 : c.toNat < 32
        · have e1 : hexVal (hexDigitChar (c.toNat / 16)) = some (c.toNat / 16) :=
            hexVal_hexDigitChar _ (by omega)
          have e2 : hexVal (hexDigitChar (c.toNat % 16)) = some (c.toNat % 16) :=
            hexVal_hexDigitChar _ (by omega)
          have hsh : escList (c :: cs) ++ '"' :: rest =
              '\\' :: 'u' :: '0' :: '0' :: hexDigitChar (c.toNat / 16) ::
                hexDigitChar (c.toNat % 16) :: (escList cs ++ '"' :: rest) := by
            simp [escList, escJ, h1, h2, h3]
          rw [hsh, parseStrBody.eq_def]
          simp only [reduceIte, e1, e2, ih, Option.some_bind]
          rw [if_neg (show ¬(('\\' : Char) = '"') from by decide)]
          rw [show hexVal '0' = some 0 from by decide]
          simp [ih]
          rw [show c.toNat / 16 * 16 + c.toNat % 16 = c.toNat from by omega]
          exact Char.ofNat_toNat c
        · have hsh : escList (c :: cs) ++ '"' :: rest =
              c :: (escList cs ++ '"' :: rest) := by
            simp [escList, escJ, h1, h2, h3]
          rw [hsh, parseStrBody.eq_def]
          simp [h1, h2, h3, ih]

/-- Dropping whitespace is the identity on a string starting with a
non-whitespace character. -/
theorem skipWs_not_ws (c : Char) (l : List Char) (h : isWs c = false) :
    skipWs (c :: l) = c :: l := by
  simp [skipWs, List.dropWhile_cons, h]

/-- Dropping whitespace eats a leading space. -/
theorem skipWs_space (l : List Char) : skipWs (' ' :: l) = skipWs l := by
  simp [skipWs, List.dropWhile_cons, isWs]

/-- `parseValF` on a string literal. -/
theorem parseValF_quote (fuel : Nat) (l : List Char) :
    parseValF (fuel + 1) ('"' :: l) =
      (parseStrBody l).map fun p => (.jstr (String.mk p.1), p.2) := by
  simp only [parseValF, skipWs_not_ws '"' l (by decide), List.headD_cons, List.tail_cons,
    if_pos]

/-- `parseValF` after an opening bracket. -/
theorem parseValF_bracket (fuel : Nat) (l : List Char) :
    parseValF (fuel + 1) ('[' :: l) =
      (if (skipWs l).headD ' ' = ']' then some (.jlist [], (skipWs l).tail)
      else do
        let (v, r3) ← parseValF fuel (skipWs l)
        let (vs, r4) ← parseItemsF fuel r3
        some (.jlist (v :: vs), r4)) := by
  simp only [parseValF, skipWs_not_ws '[' l (by decide), List.headD_cons, List.tail_cons]
  rfl

/-- `parseValF` on anything else tries an integer. -/
theorem parseValF_other (fuel : Nat) (c : Char) (l : List Char)
    (h1 : isWs c = false) (h2 : c ≠ '"') (h3 : c ≠ '[') :
    parseValF (fuel + 1) (c :: l) =
      (parseIntTok (c :: l)).map fun p => (.jint p.1, p.2) := by
  simp only [parseValF, skipWs_not_ws c l h1, List.headD_cons, if_neg h2, if_neg h3]

/-- `parseValF` skips a leading space. -/
theorem parseValF_space (fuel : Nat) (l : List Char) :
    parseValF (fuel + 1) (' ' :: l) = parseValF (fuel + 1) l := by
  simp only [parseValF, skipWs_space]

/-- `parseItemsF` on a closing bracket. -/
theorem parseItemsF_rbracket (fuel : Nat) (l : List Char) :
    parseItemsF (fuel + 1) (']' :: l) = some ([], l) := by
  simp only [parseItemsF, skipWs_not_ws ']' l (by decide), List.headD_cons, List.tail_cons,
    if_pos]

/-- `parseItemsF` on a comma. -/
theorem parseItemsF_comma (fuel : Nat) (l : List Char) :
    parseItemsF (fuel + 1) (',' :: l) =
      (do
        let (v, r1) ← parseValF fuel l
        let (vs, r2) ← parseItemsF fuel r1
        some (v :: vs, r2)) := by
  simp only [parseItemsF, skipWs_not_ws ',' l (by decide), List.headD_cons, List.tail_cons]
  rfl

/-- `parseValF` inverts `dumpStr`. -/
theorem parseValF_dumpStr (fuel : Nat) (s : String) (rest : List Char) :
    parseValF (fuel + 1) (dumpStr s ++ rest) = some (.jstr s, rest) := by
  have hsh : dumpStr s ++ rest = '"' :: (escList s.data ++ '"' :: rest) := by
    simp [dumpStr]
  rw [hsh, parseValF_quote, parseStrBody_escList]
  rfl

/-- `parseValF` inverts `dumpInt` when what follows does not start with a
digit. -/
theorem parseValF_dumpInt (fuel : Nat) (n : Int) (rest : List Char)
    (hrest : rest.takeWhile Char.isDigit = []) :
    parseValF (fuel + 1) (dumpInt n ++ rest) = some (.jint n, rest) := by
  by_cases hn : n < 0
  · have hd : dumpInt n ++ rest = '-' :: (natDigits (-n).toNat ++ rest) := by
      simp [dumpInt, if_pos hn]
    rw [hd, parseValF_other fuel '-' _ (by decide) (by decide) (by decide)]
    have hd2 : ('-' : Char) :: (natDigits (-n).toNat ++ rest) = dumpInt n ++ rest := by
      simp [dumpInt, if_pos hn]
    rw [hd2, parseIntTok_dumpInt n rest hrest]
    rfl
  · have hd : dumpInt n = natDigits n.toNat := by
      simp [dumpInt, if_neg hn]
    obtain ⟨h1, h2, h3⟩ := natDigits_spec n.toNat
    obtain ⟨d, ds, hds⟩ : ∃ d ds, natDigits n.toNat = d :: ds := by
      cases hnd : natDigits n.toNat with
      | nil => exact absurd hnd h3
      | cons d ds => exact ⟨d, ds, rfl⟩
    have hdd : d.isDigit = true := h2 d (by rw [hds]; exact List.mem_cons_self d ds)
    obtain ⟨hw, hq, hb, hm⟩ := isDigit_excludes d hdd
    have hd3 : dumpInt n ++ rest = d :: (ds ++ rest) := by rw [hd, hds]; rfl
    rw [hd3, parseValF_other fuel d _ hw hq hb]
    have hd4 : d :: (ds ++ rest) = dumpInt n ++ rest := by rw [hd, hds]; rfl
    rw [hd4, parseIntTok_dumpInt n rest hrest]
    rfl

/-- `parseValF` inverts `dumpEntry`: one encoded rule parses to the
two-element array of its pattern text and score. -/
theorem parseValF_dumpEntry (fuel : Nat) (r : Pattern × Int) (rest : List Char) :
    parseValF (fuel + 3) (dumpEntry r ++ rest) =
      some (.jlist [.jstr r.1.pattern, .jint r.2], rest) := by
  have hsh : dumpEntry r ++ rest =
      '[' :: (dumpStr r.1.pattern ++ ',' :: ' ' :: (dumpInt r.2 ++ ']' :: rest)) := by
    simp [dumpEntry]
  rw [hsh, parseValF_bracket (fuel + 2)]
  have hX : dumpStr r.1.pattern ++ ',' :: ' ' :: (dumpInt r.2 ++ ']' :: rest) =
      '"' :: (escList r.1.pattern.data ++
        '"' :: (',' :: ' ' :: (dumpInt r.2 ++ ']' :: rest))) := by
    simp [dumpStr]
  rw [hX, skipWs_not_ws '"' _ (by decide)]
  rw [if_neg (by simp), ← hX]
  rw [show (fuel + 2 : Nat) = (fuel + 1) + 1 from rfl,
    parseValF_dumpStr (fuel + 1) r.1.pattern]
  simp only [Option.bind_eq_bind, Option.some_bind]
  rw [parseItemsF_comma (fuel + 1)]
  rw [parseValF_space fuel]
  rw [show (fuel + 1 : Nat) = fuel + 1 from rfl,
    parseValF_dumpInt fuel r.2 (']' :: rest) (by simp)]
  simp only [Option.bind_eq_bind, Option.some_bind]
  rw [parseItemsF_rbracket fuel]
  simp

/-- `parseItemsF` inverts `dumpEntriesTail`, given fuel beyond the number
of remaining entries. -/
theorem parseItemsF_dumpEntriesTail :
    ∀ (rules : List (Pattern × Int)) (fuel : Nat) (rest : List Char),
      rules.length + 3 ≤ fuel →
      parseItemsF fuel (dumpEntriesTail rules ++ rest) =
        some (rules.map fun r => JVal.jlist [.jstr r.1.pattern, .jint r.2], rest)
  | [], fuel, rest, hf => by
    obtain ⟨g, rfl⟩ : ∃ g, fuel = g + 1 := ⟨fuel - 1, by omega⟩
    have hsh : dumpEntriesTail [] ++ rest = ']' :: rest := by simp [dumpEntriesTail]
    rw [hsh, parseItemsF_rbracket]
    simp
  | r :: rs, fuel, rest, hf => by
    simp only [List.length_cons] at hf
    obtain ⟨g, rfl⟩ : ∃ g, fuel = g + 4 := ⟨fuel - 4, by omega⟩
    have hsh : dumpEntriesTail (r :: rs) ++ rest =
        ',' :: ' ' :: (dumpEntry r ++ (dumpEntriesTail rs ++ rest)) := by
      simp [dumpEntriesTail]
    rw [hsh, parseItemsF_comma (g + 3), parseValF_space (g + 2), parseValF_dumpEntry g]
    simp only [Option.bind_eq_bind, Option.some_bind]
    rw [parseItemsF_dumpEntriesTail rs (g + 3) rest (by omega)]
    simp

/-- `parseValF` inverts `dumpRules`, given fuel beyond the number of
rules. -/
theorem parseValF_dumpRules (rules : List (Pattern × Int)) (fuel : Nat) (rest : List Char)
    (hf : rules.length + 3 ≤ fuel) :
    parseValF fuel (dumpRules rules ++ rest) =
      some (.jlist (rules.map fun r => JVal.jlist [.jstr r.1.pattern, .jint r.2]), rest) := by
  obtain ⟨g, rfl⟩ : ∃ g, fuel = g + 3 := ⟨fuel - 3, by omega⟩
  cases rules with
  | nil =>
    have hsh : dumpRules [] ++ rest = '[' :: ']' :: rest := by simp [dumpRules]
    rw [hsh, parseValF_bracket (g + 2), skipWs_not_ws ']' rest (by decide)]
    simp
  | cons r rs =>
    have hsh : dumpRules (r :: rs) ++ rest =
        '[' :: (dumpEntry r ++ (dumpEntriesTail rs ++ rest)) := by
      simp [dumpRules]
    rw [hsh, parseValF_bracket (g + 2)]
    have hX : dumpEntry r ++ (dumpEntriesTail rs ++ rest) =
        '[' :: (dumpStr r.1.pattern ++
          ',' :: ' ' :: (dumpInt r.2 ++ ']' :: (dumpEntriesTail rs ++ rest))) := by
      simp [dumpEntry]
    rw [hX, skipWs_not_ws '[' _ (by decide), if_neg (by simp), ← hX]
    rw [show (g + 2 : Nat) = (g - 1) + 3 from
        by simp only [List.length_cons] at hf; omega,
      parseValF_dumpEntry (g - 1)]
    simp only [Option.bind_eq_bind, Option.some_bind]
    rw [parseItemsF_dumpEntriesTail rs ((g - 1) + 3) rest
      (by simp only [List.length_cons] at hf; omega)]
    simp

/-- The encoded form is at least two characters longer than the number of
rules, so the fuel `json_loads` supplies is always sufficient. -/
theorem dumpRules_length (rules : List (Pattern × Int)) :
    rules.length + 2 ≤ (dumpRules rules).length := by
  have htail : ∀ rs : List (Pattern × Int),
      rs.length + 1 ≤ (dumpEntriesTail rs).length := by
    intro rs
    induction rs with
    | nil => simp [dumpEntriesTail]
    | cons q qs ih =>
      simp only [dumpEntriesTail, List.length_cons, List.length_append]
      omega
  cases rules with
  | nil => simp [dumpRules]
  | cons r rs =>
    have h1 := htail rs
    have h2 : 2 ≤ (dumpEntry r).length := by
      simp only [dumpEntry, dumpStr, List.length_cons, List.length_append]
      omega
    simp only [dumpRules, List.length_cons, List.length_append]
    omega

/-- `json_loads` inverts the encoder at the JSON level. -/
theorem json_loads_encode (t : RuleList) :
    json_loads (RuleList.encode t) =
      .ok (.jlist (t.rules.map fun r => JVal.jlist [.jstr r.1.pattern, .jint r.2])) := by
  unfold json_loads RuleList.encode
  have hdata : (String.mk (dumpRules t.rules)).data = dumpRules t.rules ++ [] := by simp
  have hlen : (String.mk (dumpRules t.rules)).length = (dumpRules t.rules).length := rfl
  rw [hdata, hlen,
    parseValF_dumpRules t.rules ((dumpRules t.rules).length + 1) []
      (by have := dumpRules_length t.rules; omega)]
  simp [skipWs]

/-- Processing one well-formed re-encoded entry appends the original
rule. -/
theorem decodeEntry_encoded (acc : List (Pattern × Int)) (r : Pattern × Int)
    (hr : Pattern.compile r.1.pattern = .ok r.1) :
    decodeEntry acc (JVal.jlist [.jstr r.1.pattern, .jint r.2]) = .ok (acc ++ [r]) := by
  simp only [decodeEntry, pyLen, pyIndex, pyPattern, pyInt, List.get?, hr]
  simp

/-- The decode loop maps the re-encoded entries back to the original rule
list. -/
theorem decodeRules_encoded :
    ∀ (rules : List (Pattern × Int)),
      (∀ r ∈ rules, Pattern.compile r.1.pattern = .ok r.1) →
      ∀ acc, decodeRules (rules.map fun r => JVal.jlist [.jstr r.1.pattern, .jint r.2]) acc =
        .ok (acc ++ rules)
  | [], _, acc => by simp [decodeRules]
  | r :: rs, hwf, acc => by
    have hr : Pattern.compile r.1.pattern = .ok r.1 := hwf r (List.mem_cons_self r rs)
    simp only [List.map_cons, decodeRules, decodeEntry_encoded acc r hr]
    rw [decodeRules_encoded rs (fun x hx => hwf x (List.mem_cons_of_mem r hx)) (acc ++ [r])]
    simp

/-- C8.  Round-trip: for every table whose rules are valid — each rule's
pattern text recompiles to the rule's own pattern, which holds for any
table built only from successfully compiled rules — `decode (encode t)`
succeeds and yields a `RuleList` holding exactly the original rule
sequence; in particular it has the same ordered (pattern text, score)
pairs as `t`. -/
theorem decode_encode_roundtrip (t : RuleList)
    (hwf : ∀ r ∈ t.rules, Pattern.compile r.1.pattern = .ok r.1) :
    RuleList.decode (RuleList.encode t) = .ok (.ruleList (RuleList.init t.rules))
    ∧ (RuleList.init t.rules).rules.map (fun r => (r.1.pattern, r.2)) =
        t.rules.map (fun r => (r.1.pattern, r.2)) := by
  refine ⟨?_, rfl⟩
  unfold RuleList.decode
  rw [json_loads_encode t]
  simp only [pyIter]
  rw [decodeRules_encoded t.rules hwf []]
  simp

/-- Witness for C8: the concrete two-rule table `a = 0, b = 1` decodes
from its own encoding back to its own rule list. -/
theorem decode_encode_roundtrip_witness :
    RuleList.decode (RuleList.encode sampleTable) =
      .ok (.ruleList (RuleList.init sampleTable.rules)) :=
  (decode_encode_roundtrip sampleTable (by decide)).1

/-- C10.  `RuleList.get_score` ignores its second (`rules`) parameter
entirely: for any two values of any types passed there, the result is
identical. -/
theorem get_score_ignores_rules_argument (t : RuleList) (name : String)
    {α β : Sort _} (x : α) (y : β) :
    t.get_score name x = t.get_score name y := rfl

end Autosort
